import Mathlib

/-!
Verification of the tsuru fake routing registry (`router/routertest/router.go`)
and the application aggregate (`app` package) against their specification.

Go maps are embedded as association lists with unique keys; a Go method that
mutates its receiver and returns an error is embedded as a pure function
returning the new state paired with an optional error, where every early
error return yields the input state unchanged, exactly as the Go code leaves
its receiver untouched on those paths.
-/

set_option autoImplicit false

deriving instance DecidableEq for Except

namespace Tsuru

/-- Association-list read, mirroring a Go map read: first entry with the key. -/
def lookupA {α : Type} : List (String × α) → String → Option α
  | [], _ => none
  | (k, v) :: rest, key => if k == key then some v else lookupA rest key

/-- Association-list write, mirroring a Go map write: replace the entry for the
key when present, append when absent. -/
def insertA {α : Type} : List (String × α) → String → α → List (String × α)
  | [], key, v => [(key, v)]
  | (k, w) :: rest, key, v =>
    if k == key then (k, v) :: rest else (k, w) :: insertA rest key v

/-- Association-list delete, mirroring a Go map delete. -/
def eraseA {α : Type} : List (String × α) → String → List (String × α)
  | [], _ => []
  | (k, w) :: rest, key =>
    if k == key then eraseA rest key else (k, w) :: eraseA rest key

theorem lookupA_insertA_self {α : Type} (m : List (String × α)) (k : String) (v : α) :
    lookupA (insertA m k v) k = some v := by
  induction m with
  | nil => simp [insertA, lookupA]
  | cons p rest ih =>
    obtain ⟨k', w⟩ := p
    by_cases h : k' = k
    · simp [insertA, lookupA, h]
    · simp [insertA, lookupA, h, ih]

theorem lookupA_insertA_ne {α : Type} (m : List (String × α)) (k k' : String) (v : α)
    (h : k ≠ k') : lookupA (insertA m k v) k' = lookupA m k' := by
  induction m with
  | nil => simp [insertA, lookupA, h]
  | cons p rest ih =>
    obtain ⟨k₀, w⟩ := p
    by_cases h₀ : k₀ = k
    · subst h₀
      simp [insertA, lookupA, h]
    · by_cases h₁ : k₀ = k'
      · simp [insertA, lookupA, h₀, h₁, Ne.symm h]
      · simp [insertA, lookupA, h₀, h₁, ih]

/-- Health-check payload; the registry treats it as opaque and stores it
verbatim, so a plain string stands in for `router.HealthcheckData`. -/
abbrev HealthcheckData := String

/-- Sentinel error kinds of the routing layer (`router.Err*` plus the test
double's forced failure and a resolution failure for a missing record). -/
inductive RouterError : Type
  | backendExists
  | backendSwapped
  | backendNotFound
  | routeExists
  | routeNotFound
  | cnameExists
  | cnameNotFound
  | cnameNotAllowed
  | forcedFailure
  | resolutionFailed
  deriving DecidableEq, Repr

/-- State of the fake router (`fakeRouter` struct): backend route sets, the
alias table, the set of administratively failing addresses, health records,
and the external name-resolution record written by `router.Store` and read by
`router.Retrieve` (spec section 6), carried here as part of the state. -/
structure RouterState : Type where
  backends : List (String × List String)
  cnames : List (String × String)
  failuresByIp : List (String × Bool)
  healthcheck : List (String × HealthcheckData)
  resolutions : List (String × String)
  deriving DecidableEq, Repr

/-- Modelled from the spec: `router.Retrieve(name)` queries the durable
name-resolution record mapping an application name to its backend name
(spec section 6); the function itself is outside the sampled sources. -/
def retrieve (s : RouterState) (name : String) : Except RouterError String :=
  match lookupA s.resolutions name with
  | some b => Except.ok b
  | none => Except.error RouterError.resolutionFailed

/-- Embeds `fakeRouter.HasBackend`. -/
def hasBackend (s : RouterState) (name : String) : Bool :=
  (lookupA s.backends name).isSome

/-- Reads the failure-injection flag for an address (`r.failuresByIp[addr]`,
a Go map read defaulting to false). -/
def failing (s : RouterState) (ip : String) : Bool :=
  (lookupA s.failuresByIp ip).getD false

/-- Route set currently stored for a backend (nil map entry reads as empty). -/
def routesOf (s : RouterState) (backend : String) : List String :=
  (lookupA s.backends backend).getD []

/-- Embeds `fakeRouter.AddRoutes`: resolve the name, require the backend,
reject the whole batch when any address is flagged failing, then append each
address not already present (per-address deduplication). -/
def addRoutes (s : RouterState) (name : String) (addresses : List String) :
    RouterState × Option RouterError :=
  match retrieve s name with
  | Except.error e => (s, some e)
  | Except.ok backendName =>
    if !(hasBackend s backendName) then (s, some RouterError.backendNotFound)
    else if addresses.any (fun a => failing s a) then (s, some RouterError.forcedFailure)
    else
      let routes := addresses.foldl
        (fun rs a => if rs.contains a then rs else rs ++ [a])
        (routesOf s backendName)
      ({ s with backends := insertA s.backends backendName routes }, none)

/-- Removes the first occurrence of an address, as the inner loop of
`RemoveRoutes` does (scan, splice out, break). -/
def removeFirst : List String → String → List String
  | [], _ => []
  | x :: xs, a => if x == a then xs else x :: removeFirst xs a

/-- Embeds `fakeRouter.RemoveRoutes`: resolve the name, require the backend,
reject the whole batch when any address is flagged failing, then drop the
first occurrence of each address (absent addresses are silently skipped). -/
def removeRoutes (s : RouterState) (name : String) (addresses : List String) :
    RouterState × Option RouterError :=
  match retrieve s name with
  | Except.error e => (s, some e)
  | Except.ok backendName =>
    if !(hasBackend s backendName) then (s, some RouterError.backendNotFound)
    else if addresses.any (fun a => failing s a) then (s, some RouterError.forcedFailure)
    else
      let routes := addresses.foldl (fun rs a => removeFirst rs a) (routesOf s backendName)
      ({ s with backends := insertA s.backends backendName routes }, none)

/-- Embeds `fakeRouter.RemoveBackend`: resolve the name, fail as swapped when
the resolved backend differs from the requested name, fail when the resolved
backend is unregistered; on success delete every alias pointing at the
backend, drop its route set, and remove the name-resolution record
(`router.Remove`, modelled from spec section 6). -/
def removeBackend (s : RouterState) (name : String) :
    RouterState × Option RouterError :=
  match retrieve s name with
  | Except.error e => (s, some e)
  | Except.ok backendName =>
    if backendName != name then (s, some RouterError.backendSwapped)
    else if !(hasBackend s backendName) then (s, some RouterError.backendNotFound)
    else
      ({ s with
          cnames := s.cnames.filter (fun p => p.2 != backendName),
          backends := eraseA s.backends backendName,
          resolutions := eraseA s.resolutions backendName }, none)

/-- Embeds `fakeRouter.SetCName`: resolve the name; if the backend is not
registered, succeed without mutating anything; otherwise reject invalid
aliases, then reject aliases that already map somewhere, then record the
alias. `router.ValidCName` is external, so it is taken as a parameter. -/
def setCName (s : RouterState) (validCName : String → Bool) (cname name : String) :
    RouterState × Option RouterError :=
  match retrieve s name with
  | Except.error e => (s, some e)
  | Except.ok backendName =>
    if !(hasBackend s backendName) then (s, none)
    else if !(validCName cname) then (s, some RouterError.cnameNotAllowed)
    else if (lookupA s.cnames cname).isSome then (s, some RouterError.cnameExists)
    else ({ s with cnames := insertA s.cnames cname backendName }, none)

/-- Embeds `fakeRouter.SetHealthcheck`: resolve the name and store the payload
under the resolved backend name. -/
def setHealthcheck (s : RouterState) (name : String) (data : HealthcheckData) :
    RouterState × Option RouterError :=
  match retrieve s name with
  | Except.error e => (s, some e)
  | Except.ok backendName =>
    ({ s with healthcheck := insertA s.healthcheck backendName data }, none)

/-- Lexicographic order test on character lists, embedding Go's byte-wise
string comparison (identical on the ASCII names used throughout). -/
def leChars : List Char → List Char → Bool
  | [], _ => true
  | _ :: _, [] => false
  | c :: cs, d :: ds => if c = d then leChars cs ds else decide (c < d)

/-- Go string comparison `x >= y`. -/
def strGe (x y : String) : Bool := leChars y.data x.data

/-- Embeds `sort.Search`'s binary-search loop; the fuel argument only bounds
the iteration count, and the initial fuel `n` is enough because the interval
width `j - i` strictly decreases on every pass. -/
def sortSearchAux (f : Nat → Bool) : Nat → Nat → Nat → Nat
  | 0, i, _ => i
  | fuel + 1, i, j =>
    if i < j then
      if f ((i + j) / 2) then sortSearchAux f fuel i ((i + j) / 2)
      else sortSearchAux f fuel ((i + j) / 2 + 1) j
    else i

/-- Embeds `sort.Search(n, f)`. -/
def sortSearch (n : Nat) (f : Nat → Bool) : Nat :=
  sortSearchAux f n 0 n

/-- Embeds `App.Find`: binary search for the team name in the sorted team
list, returning the located position and whether the name is there. -/
def findTeam (teams : List String) (t : String) : Nat × Bool :=
  let pos := sortSearch teams.length (fun i => strGe (teams.getD i "") t)
  (pos, decide (pos < teams.length) && (teams.getD pos "" == t))

/-- Embeds the shifting loop of `App.Grant`
(`a.Teams[i+1], tmp = tmp, a.Teams[i]`): both right-hand sides are read
before the write, and only index `i+1` is written, so each pass stores `tmp`
at `i+1` and reloads `tmp` from index `i`. `k` counts the remaining passes. -/
def grantShift : List String → String → Nat → Nat → List String
  | ts, _, _, 0 => ts
  | ts, tmp, i, k + 1 => grantShift (ts.set (i + 1) tmp) (ts.getD i "") (i + 1) k

/-- Embeds `App.Grant` on the team list: locate the insertion position, fail
when the team is already present, append an empty slot, run the shifting
loop for `len(a.Teams)-1-pos` passes, then store the team name at `pos`. -/
def grant (teams : List String) (t : String) : Except String (List String) :=
  let pf := findTeam teams t
  if pf.2 then Except.error "This team already has access to this app"
  else
    let ts := teams ++ [""]
    Except.ok ((grantShift ts (ts.getD pf.1 "") pf.1 (ts.length - 1 - pf.1)).set pf.1 t)

/-- Embeds `App.Revoke` on the team list: locate the team, fail when absent,
otherwise shift the tail left over the located index and truncate. -/
def revoke (teams : List String) (t : String) : Except String (List String) :=
  let pf := findTeam teams t
  if !pf.2 then Except.error "This team does not have access to this app"
  else Except.ok (teams.eraseIdx pf.1)

/-- Embeds `bind.EnvVar` (the fields the app aggregate reads). -/
structure EnvVar : Type where
  name : String
  value : String
  isPublic : Bool
  instanceName : String
  deriving DecidableEq, Repr

/-- Application environment: Go's `map[string]bind.EnvVar` keyed by name. -/
abbrev Env := List (String × EnvVar)

/-- Embeds `App.setEnv`: store the variable under its name. -/
def setEnv (e : Env) (v : EnvVar) : Env :=
  insertA e v.name v

/-- Embeds `App.getEnv`: the variable when declared, nothing otherwise
(standing for the declared-or-error pair the Go method returns). -/
def getEnv (e : Env) (n : String) : Option EnvVar :=
  lookupA e n

/-- One pass of the `SetEnvsToApp` loop body: skip the variable exactly when
`publicOnly` is set and a variable of the same name is currently declared
non-public; otherwise upsert it. -/
def setEnvsStep (publicOnly : Bool) (acc : Env) (v : EnvVar) : Env :=
  let skip := publicOnly && (match getEnv acc v.name with
    | some ev => !ev.isPublic
    | none => false)
  if skip then acc else setEnv acc v

/-- Embeds the environment mutation of `App.SetEnvsToApp`: the loop body runs
over the incoming variables in order. The persistence and propagation side
effects are external collaborators. -/
def setEnvsToApp (e : Env) (envs : List EnvVar) (publicOnly : Bool) : Env :=
  envs.foldl (setEnvsStep publicOnly) e

/-- Modelled from the spec: a unit descriptor (section 3); `AddUnit` reads
only the machine field, the name stands for the rest of the record. -/
structure AUnit : Type where
  machine : Nat
  name : String
  deriving DecidableEq, Repr

/-- Embeds `App.AddUnit`: replace the first unit with the same machine,
append when none matches. -/
def addUnit : List AUnit → AUnit → List AUnit
  | [], u => [u]
  | x :: xs, u => if x.machine == u.machine then u :: xs else x :: addUnit xs u

/-- Embeds `App.isValid`: the regular expression `[a-z][a-z0-9]{0,62}`
anchored on both sides — a lowercase first letter followed by at most 62
lowercase letters or digits. -/
def isValidName (s : String) : Bool :=
  match s.data with
  | [] => false
  | c :: cs =>
    c.isLower && decide (cs.length ≤ 62) && cs.all (fun d => d.isLower || d.isDigit)

/-- The naming pattern in the specification's words: at most 63 characters in
total, the first a lowercase letter, the remaining ones lowercase letters or
digits. -/
def namePatternSpec (s : String) : Bool :=
  decide (s.data ≠ []) && decide (s.data.length ≤ 63)
    && (s.data.take 1).all Char.isLower
    && (s.data.drop 1).all (fun d => d.isLower || d.isDigit)

/-- Embeds the `App` record (the fields the verified operations touch). -/
structure App : Type where
  name : String
  env : Env
  units : List AUnit
  teams : List String

/-- Message of the `ValidationError` returned by `CreateApp`. -/
def invalidNameMsg : String :=
  "Invalid app name, your app should have at most 63 characters, containing only lower case letters or numbers, starting with a letter."

/-- Outcome of `CreateApp`: either the fast validation failure or the result
of handing the app to the action pipeline. -/
inductive CreateResult (σ : Type) : Type
  | validationError (msg : String)
  | executed (r : σ)
  deriving DecidableEq, Repr

/-- Embeds `CreateApp`: reject invalid names with a `ValidationError` before
building or running any pipeline step; otherwise run the pipeline. The step
list and executor live outside the sampled sources, so the whole pipeline run
is abstracted as the function argument. -/
def createApp {σ : Type} (a : App) (execute : App → σ) : CreateResult σ :=
  if isValidName a.name then CreateResult.executed (execute a)
  else CreateResult.validationError invalidNameMsg

/-- Embeds the `conf` record holding restart hooks. -/
structure Conf : Type where
  preRestart : List String
  posRestart : List String
  deriving DecidableEq, Repr

/-- The freshly allocated `new(conf)`: no hooks. -/
def emptyConf : Conf := ⟨[], []⟩

/-- Embeds `App.loadHooks`, with its three external collaborators as
arguments: the repository path lookup, remote command execution on the unit,
and YAML parsing. Returns the cached hook configuration after the call,
paired with the returned error. -/
def loadHooks (cached : Option Conf) (repoPath : Except String String)
    (runCommand : String → Except String String)
    (parseYaml : String → Except String Conf) :
    Option Conf × Option String :=
  match cached with
  | some c => (some c, none)
  | none =>
    match repoPath with
    | Except.error e => (some emptyConf, some e)
    | Except.ok p =>
      match runCommand ("cat " ++ p ++ "/app.conf") with
      | Except.error _ => (some emptyConf, none)
      | Except.ok out =>
        match parseYaml out with
        | Except.error e => (some emptyConf, some e)
        | Except.ok c => (some c, none)

theorem retrieve_error_eq (s : RouterState) (n : String) (e : RouterError)
    (h : retrieve s n = Except.error e) : e = RouterError.resolutionFailed := by
  unfold retrieve at h
  cases hl : lookupA s.resolutions n
  · rw [hl] at h
    injection h with h
    exact h.symm
  · rw [hl] at h
    simp at h

/-- C1: on the sorted, duplicate-free team list `["c", "d"]`, which does not
contain `"a"`, `Grant("a")` produces `["a", "c", "c"]` — the member `"d"` is
clobbered by the shifting loop — and `Grant("a")` followed by `Revoke("a")`
yields `["c", "c"]`, not the original list, contradicting the claimed
round-trip and member preservation. -/
theorem grant_shift_clobbers_members :
    grant ["c", "d"] "a" = Except.ok ["a", "c", "c"]
    ∧ (grant ["c", "d"] "a").bind (fun ts => revoke ts "a") = Except.ok ["c", "c"]
    ∧ (grant ["c", "d"] "a").bind (fun ts => revoke ts "a") ≠ Except.ok ["c", "d"] := by
  decide

/-- C2: when the name resolves to a registered backend and any address of the
batch is flagged as failing, both `AddRoutes` and `RemoveRoutes` return the
forced failure and leave the whole registry state — in particular the
backend's route set — completely unchanged. -/
theorem batch_routes_all_or_nothing (s : RouterState) (name b : String)
    (addrs : List String)
    (hr : retrieve s name = Except.ok b) (hb : hasBackend s b = true)
    (hf : ∃ a ∈ addrs, failing s a = true) :
    addRoutes s name addrs = (s, some RouterError.forcedFailure)
    ∧ removeRoutes s name addrs = (s, some RouterError.forcedFailure) := by
  have hany : addrs.any (fun a => failing s a) = true := by
    rcases hf with ⟨a, ha, hfa⟩
    exact List.any_eq_true.mpr ⟨a, ha, hfa⟩
  constructor
  · simp [addRoutes, hr, hb, hany]
  · simp [removeRoutes, hr, hb, hany]

/-- Closed instance of C2: a registered backend with routes `["r1"]`, a batch
containing the flagged address `"bad"`. -/
theorem batch_routes_all_or_nothing_witness :
    addRoutes ⟨[("app", ["r1"])], [], [("bad", true)], [], [("app", "app")]⟩
        "app" ["r2", "bad"]
      = (⟨[("app", ["r1"])], [], [("bad", true)], [], [("app", "app")]⟩,
          some RouterError.forcedFailure)
    ∧ removeRoutes ⟨[("app", ["r1"])], [], [("bad", true)], [], [("app", "app")]⟩
        "app" ["r2", "bad"]
      = (⟨[("app", ["r1"])], [], [("bad", true)], [], [("app", "app")]⟩,
          some RouterError.forcedFailure) :=
  batch_routes_all_or_nothing _ "app" "app" ["r2", "bad"] (by decide) (by decide)
    ⟨"bad", by decide, by decide⟩

/-- C3: when the name-resolution record resolves `name` to a different
backend, `RemoveBackend` fails with the swapped error; when it resolves to
`name` itself but the backend is unregistered, it fails with the not-found
error; in both cases the registry state is returned unchanged. -/
theorem removeBackend_swapped_and_missing (s : RouterState) (name b : String)
    (hr : retrieve s name = Except.ok b) :
    (b ≠ name → removeBackend s name = (s, some RouterError.backendSwapped))
    ∧ (b = name → hasBackend s b = false →
        removeBackend s name = (s, some RouterError.backendNotFound)) := by
  constructor
  · intro hne
    simp [removeBackend, hr, hne]
  · intro he hnb
    subst he
    simp [removeBackend, hr, hnb]

/-- Closed instance of C3: a record resolving `"sw"` to `"other"` triggers the
swapped error, and a record resolving `"gone"` to itself with no registered
backend triggers the not-found error. -/
theorem removeBackend_swapped_and_missing_witness :
    removeBackend ⟨[("app", [])], [], [], [], [("sw", "other"), ("gone", "gone")]⟩ "sw"
      = (⟨[("app", [])], [], [], [], [("sw", "other"), ("gone", "gone")]⟩,
          some RouterError.backendSwapped)
    ∧ removeBackend ⟨[("app", [])], [], [], [], [("sw", "other"), ("gone", "gone")]⟩ "gone"
      = (⟨[("app", [])], [], [], [], [("sw", "other"), ("gone", "gone")]⟩,
          some RouterError.backendNotFound) :=
  ⟨(removeBackend_swapped_and_missing _ "sw" "other" (by decide)).1 (by decide),
    (removeBackend_swapped_and_missing _ "gone" "gone" (by decide)).2 rfl (by decide)⟩

/-- C8: with no cached hooks and a readable repository path, a failure of the
command that fetches the hook source makes `loadHooks` return no error and
cache the empty hook configuration (the app degrades to having no hooks),
while a YAML parse failure on fetched content is returned to the caller. -/
theorem loadHooks_fetch_nonfatal_parse_fatal (p out e pe : String)
    (run₁ run₂ : String → Except String String)
    (parse : String → Except String Conf)
    (h₁ : run₁ ("cat " ++ p ++ "/app.conf") = Except.error e)
    (h₂ : run₂ ("cat " ++ p ++ "/app.conf") = Except.ok out)
    (h₃ : parse out = Except.error pe) :
    loadHooks none (Except.ok p) run₁ parse = (some emptyConf, none)
    ∧ loadHooks none (Except.ok p) run₂ parse = (some emptyConf, some pe) := by
  constructor
  · simp [loadHooks, h₁]
  · simp [loadHooks, h₂, h₃]

/-- Closed instance of C8: a fetch command that always fails yields no error
and empty hooks; a fetch that yields unparsable content surfaces the parse
error. -/
theorem loadHooks_fetch_nonfatal_parse_fatal_witness :
    loadHooks none (Except.ok "/repo") (fun _ => Except.error "exec failed")
        (fun _ => Except.error "bad yaml")
      = (some emptyConf, none)
    ∧ loadHooks none (Except.ok "/repo") (fun _ => Except.ok "junk")
        (fun _ => Except.error "bad yaml")
      = (some emptyConf, some "bad yaml") :=
  loadHooks_fetch_nonfatal_parse_fatal "/repo" "junk" "exec failed" "bad yaml"
    (fun _ => Except.error "exec failed") (fun _ => Except.ok "junk")
    (fun _ => Except.error "bad yaml") rfl rfl rfl

/-- C9: when the name resolves to an unregistered backend, `SetCName`
succeeds and mutates nothing, whatever the domain-validity predicate says
about the alias and whatever the alias table currently holds; and the
not-allowed and already-exists errors can only come out of a call whose name
resolved to a registered backend. -/
theorem setCName_unregistered_noop (s : RouterState)
    (validCName : String → Bool) (cname name b : String)
    (hr : retrieve s name = Except.ok b) (hb : hasBackend s b = false) :
    setCName s validCName cname name = (s, none)
    ∧ ∀ (s' : RouterState) (v' : String → Bool) (c' n' : String),
        ((setCName s' v' c' n').2 = some RouterError.cnameNotAllowed
          ∨ (setCName s' v' c' n').2 = some RouterError.cnameExists) →
        ∃ b', retrieve s' n' = Except.ok b' ∧ hasBackend s' b' = true := by
  constructor
  · simp [setCName, hr, hb]
  · intro s' v' c' n' hdisj
    cases hret : retrieve s' n' with
    | error err =>
      have herr := retrieve_error_eq s' n' err hret
      subst herr
      rcases hdisj with h | h <;> simp [setCName, hret] at h
    | ok b' =>
      by_cases hhb : hasBackend s' b' = true
      · exact ⟨b', rfl, hhb⟩
      · rcases hdisj with h | h <;> simp [setCName, hret, hhb] at h

/-- State exercising C9: `"sw"` resolves to the unregistered `"app2"`,
`"app"` resolves to itself and is registered, and the alias `"al"` is
already taken. -/
def exS9 : RouterState :=
  ⟨[("app", [])], [("al", "x")], [], [], [("sw", "app2"), ("app", "app")]⟩

/-- Closed instance of C9: `"app2"` is resolved but not registered, so
aliasing succeeds as a no-op even though the validity predicate rejects
everything and the alias is already taken; and a rejected alias on the
registered `"app"` exhibits the second conjunct's premise. -/
theorem setCName_unregistered_noop_witness :
    setCName exS9 (fun _ => false) "al" "sw" = (exS9, none)
    ∧ ∃ b', retrieve exS9 "app" = Except.ok b' ∧ hasBackend exS9 b' = true :=
  ⟨(setCName_unregistered_noop exS9 (fun _ => false) "al" "sw" "app2"
      (by decide) (by decide)).1,
    (setCName_unregistered_noop exS9 (fun _ => false) "al" "sw" "app2"
      (by decide) (by decide)).2
      exS9 (fun _ => false) "al" "app" (Or.inl (by decide))⟩

theorem lookupA_eraseA_self {α : Type} (m : List (String × α)) (k : String) :
    lookupA (eraseA m k) k = none := by
  induction m with
  | nil => rfl
  | cons p rest ih =>
    obtain ⟨k₀, w⟩ := p
    by_cases h : k₀ = k
    · simp [eraseA, h, ih]
    · simp [eraseA, lookupA, h, ih]

theorem lookupA_filter_snd_ne (m : List (String × String)) (x c : String) :
    lookupA (m.filter (fun p => p.2 != x)) c ≠ some x := by
  induction m with
  | nil => simp [lookupA]
  | cons p rest ih =>
    obtain ⟨k₀, v⟩ := p
    by_cases hv : v = x
    · simp [List.filter_cons, hv, ih]
    · by_cases hk : k₀ = c
      · simp [List.filter_cons, hv, lookupA, hk]
      · simp [List.filter_cons, hv, lookupA, hk, ih]

/-- State exercising C4: a registered backend `"app"` resolving to itself,
with one alias, one route and a stored health record. -/
def exS4 : RouterState :=
  ⟨[("app", ["r1"])], [("al", "app")], [], [("app", "hc")], [("app", "app")]⟩

/-- Counterexample to C4 as stated: `RemoveBackend("app")` succeeds on
`exS4`, yet the stored health record for `"app"` is still present
afterwards — the code never touches the health map, so the health record is
not purged. -/
theorem removeBackend_keeps_health_cex :
    (removeBackend exS4 "app").2 = none
    ∧ lookupA (removeBackend exS4 "app").1.healthcheck "app" = some "hc" := by
  decide

/-- C4 as amended: on every successful `RemoveBackend(name)`, every alias
pointing at the removed backend and the backend's route set are purged, but
the stored health record map is left exactly as it was. -/
theorem removeBackend_success_purges (s : RouterState) (name : String)
    (s' : RouterState) (h : removeBackend s name = (s', none)) :
    s'.cnames = s.cnames.filter (fun p => p.2 != name)
    ∧ (∀ c, lookupA s'.cnames c ≠ some name)
    ∧ s'.backends = eraseA s.backends name
    ∧ lookupA s'.backends name = none
    ∧ s'.healthcheck = s.healthcheck := by
  unfold removeBackend at h
  cases hret : retrieve s name with
  | error e =>
    rw [hret] at h
    simp at h
  | ok b =>
    rw [hret] at h
    dsimp only at h
    split_ifs at h with h₁ h₂
    · simp at h
    · simp at h
    · have hbn : b = name := by
        simpa [bne_iff_ne] using h₁
      subst hbn
      rw [Prod.mk.injEq] at h
      obtain ⟨hs, -⟩ := h
      subst hs
      refine ⟨rfl, fun c => lookupA_filter_snd_ne _ _ _, rfl, lookupA_eraseA_self _ _, rfl⟩

/-- Closed instance of the amended C4 at `exS4`: after the successful
removal, no alias points at `"app"`, its route set is gone, and the health
record map is untouched. -/
theorem removeBackend_success_purges_witness :
    (∀ c, lookupA (removeBackend exS4 "app").1.cnames c ≠ some "app")
    ∧ lookupA (removeBackend exS4 "app").1.backends "app" = none
    ∧ (removeBackend exS4 "app").1.healthcheck = exS4.healthcheck :=
  have h : removeBackend exS4 "app" = ((removeBackend exS4 "app").1, none) := rfl
  have hall := removeBackend_success_purges exS4 "app" (removeBackend exS4 "app").1 h
  ⟨hall.2.1, hall.2.2.2.1, hall.2.2.2.2⟩

theorem isValidName_eq_namePatternSpec (s : String) :
    isValidName s = namePatternSpec s := by
  unfold isValidName namePatternSpec
  cases hd : s.data with
  | nil => simp
  | cons c cs =>
    have hlen : decide ((c :: cs).length ≤ 63) = decide (cs.length ≤ 62) :=
      decide_eq_decide.mpr (by simp)
    rw [hlen]
    simp only [List.take_succ_cons, List.take_zero, List.all_cons, List.all_nil,
      List.drop_succ_cons, List.drop_zero, ne_eq, reduceCtorEq, not_false_eq_true,
      decide_True, Bool.true_and, Bool.and_true]
    rw [Bool.and_comm c.isLower (decide (cs.length ≤ 62))]

/-- C5: `CreateApp` fails fast with the `ValidationError` — uniformly in the
pipeline executor, hence before any step can run or provision anything —
exactly when the application name falls outside the naming pattern stated in
the specification; on a valid name the call is precisely the pipeline run. -/
theorem createApp_validation (a : App) :
    ((∀ (σ : Type) (execute : App → σ),
        createApp a execute = CreateResult.validationError invalidNameMsg)
      ↔ namePatternSpec a.name = false)
    ∧ (namePatternSpec a.name = true →
        ∀ (σ : Type) (execute : App → σ),
          createApp a execute = CreateResult.executed (execute a)) := by
  have hv := isValidName_eq_namePatternSpec a.name
  constructor
  · constructor
    · intro hall
      cases hval : namePatternSpec a.name
      · rfl
      · have hid := hall App (fun x => x)
        rw [createApp, hv, hval] at hid
        simp at hid
    · intro hfalse σ execute
      simp [createApp, hv, hfalse]
  · intro ht σ execute
    simp [createApp, hv, ht]

/-- Closed instance of C5: a name starting with a digit is rejected with the
validation error, and a valid name reaches the pipeline. -/
theorem createApp_validation_witness :
    createApp ⟨"9bad", [], [], []⟩ (fun x => x)
      = CreateResult.validationError invalidNameMsg
    ∧ createApp ⟨"ok1", [], [], []⟩ (fun x => x)
      = CreateResult.executed ⟨"ok1", [], [], []⟩ :=
  ⟨((createApp_validation ⟨"9bad", [], [], []⟩).1.mpr (by decide)) App (fun x => x),
    (createApp_validation ⟨"ok1", [], [], []⟩).2 (by decide) App (fun x => x)⟩

theorem removeFirst_not_mem (l : List String) (a : String) (h : a ∉ l) :
    removeFirst l a = l := by
  induction l with
  | nil => rfl
  | cons x xs ih =>
    simp only [List.mem_cons, not_or] at h
    have hx : (x == a) = false := by
      simp only [beq_eq_false_iff_ne, ne_eq]
      exact fun he => h.1 he.symm
    simp [removeFirst, hx, ih h.2]

/-- C7: against a registered backend and with no failure injection, adding a
batch holding an address the route set already holds exactly once leaves
exactly one occurrence of it and reports no error, and removing a batch
holding an absent address leaves the route set unchanged and reports no
error. -/
theorem routes_dup_add_and_absent_remove (s : RouterState) (name b a a' : String)
    (hr : retrieve s name = Except.ok b) (hb : hasBackend s b = true)
    (hfa : failing s a = false) (hfa' : failing s a' = false)
    (hcount : (routesOf s b).count a = 1) (habs : a' ∉ routesOf s b) :
    ((addRoutes s name [a]).2 = none
      ∧ (routesOf (addRoutes s name [a]).1 b).count a = 1)
    ∧ ((removeRoutes s name [a']).2 = none
      ∧ routesOf (removeRoutes s name [a']).1 b = routesOf s b) := by
  have hmem : a ∈ routesOf s b := by
    apply List.count_pos_iff.mp
    rw [hcount]
    exact Nat.one_pos
  have hcont : (routesOf s b).contains a = true := by simpa using hmem
  have hadd : addRoutes s name [a]
      = ({ s with backends := insertA s.backends b (routesOf s b) }, none) := by
    simp [addRoutes, hr, hb, hfa, hcont, hmem]
  have hrem : removeRoutes s name [a']
      = ({ s with backends := insertA s.backends b (routesOf s b) }, none) := by
    simp [removeRoutes, hr, hb, hfa', removeFirst_not_mem _ _ habs]
  have hlook : routesOf { s with backends := insertA s.backends b (routesOf s b) } b
      = routesOf s b := by
    simp [routesOf, lookupA_insertA_self]
  rw [hadd, hrem]
  exact ⟨⟨rfl, by rw [hlook, hcount]⟩, rfl, hlook⟩

/-- Closed instance of C7: the backend `"app"` holds `["r1", "a1"]`; adding
`["a1"]` again keeps one occurrence and removing the absent `["zz"]` changes
nothing. -/
theorem routes_dup_add_and_absent_remove_witness :
    ((addRoutes ⟨[("app", ["r1", "a1"])], [], [], [], [("app", "app")]⟩ "app" ["a1"]).2 = none
      ∧ (routesOf (addRoutes ⟨[("app", ["r1", "a1"])], [], [], [], [("app", "app")]⟩
            "app" ["a1"]).1 "app").count "a1" = 1)
    ∧ ((removeRoutes ⟨[("app", ["r1", "a1"])], [], [], [], [("app", "app")]⟩ "app" ["zz"]).2 = none
      ∧ routesOf (removeRoutes ⟨[("app", ["r1", "a1"])], [], [], [], [("app", "app")]⟩
            "app" ["zz"]).1 "app"
          = routesOf ⟨[("app", ["r1", "a1"])], [], [], [], [("app", "app")]⟩ "app") :=
  routes_dup_add_and_absent_remove ⟨[("app", ["r1", "a1"])], [], [], [], [("app", "app")]⟩
    "app" "app" "a1" "zz" (by decide) (by decide) (by decide) (by decide)
    (by decide) (by decide)

theorem lookupA_setEnvsStep_ne (p : Bool) (e : Env) (v : EnvVar) (n : String)
    (h : v.name ≠ n) : lookupA (setEnvsStep p e v) n = lookupA e n := by
  cases hb : (p && (match getEnv e v.name with
      | some ev => !ev.isPublic
      | none => false)) with
  | true => simp [setEnvsStep, hb]
  | false => simp [setEnvsStep, hb, setEnv, lookupA_insertA_ne e v.name n v h]

theorem setEnvsToApp_lookup_not_mem (envs : List EnvVar) (e : Env) (p : Bool)
    (n : String) (h : n ∉ envs.map EnvVar.name) :
    lookupA (setEnvsToApp e envs p) n = lookupA e n := by
  induction envs generalizing e with
  | nil => rfl
  | cons v rest ih =>
    simp only [List.map_cons, List.mem_cons, not_or] at h
    rw [setEnvsToApp, List.foldl_cons]
    rw [show List.foldl (setEnvsStep p) (setEnvsStep p e v) rest
        = setEnvsToApp (setEnvsStep p e v) rest p from rfl]
    rw [ih (setEnvsStep p e v) h.2]
    exact lookupA_setEnvsStep_ne p e v n (fun he => h.1 he.symm)

/-- C6: for variable batches with pairwise distinct names, `SetEnvsToApp`
with `publicOnly` set leaves every variable whose name is currently declared
non-public at its old value and upserts every other incoming variable; with
`publicOnly` unset it upserts every incoming variable; names outside the
batch are never touched. -/
theorem setEnvsToApp_publicOnly_gating (e : Env) (envs : List EnvVar)
    (h : (envs.map EnvVar.name).Nodup) :
    (∀ v ∈ envs, ∀ ev, lookupA e v.name = some ev → ev.isPublic = false →
        lookupA (setEnvsToApp e envs true) v.name = some ev)
    ∧ (∀ v ∈ envs, (∀ ev, lookupA e v.name = some ev → ev.isPublic = true) →
        lookupA (setEnvsToApp e envs true) v.name = some v)
    ∧ (∀ v ∈ envs, lookupA (setEnvsToApp e envs false) v.name = some v)
    ∧ (∀ n, n ∉ envs.map EnvVar.name → ∀ p,
        lookupA (setEnvsToApp e envs p) n = lookupA e n) := by
  induction envs generalizing e with
  | nil =>
    refine ⟨?_, ?_, ?_, ?_⟩ <;> intro v hv <;> first
      | cases hv
      | exact fun p => rfl
  | cons v rest ih =>
    have hnd := h
    simp only [List.map_cons, List.nodup_cons] at hnd
    obtain ⟨hvn, hrest⟩ := hnd
    refine ⟨?_, ?_, ?_, ?_⟩
    · intro w hw ev hev hpub
      rcases List.mem_cons.mp hw with hwv | hwr
      · subst hwv
        have hstep : setEnvsStep true e w = e := by
          simp [setEnvsStep, getEnv, hev, hpub]
        rw [setEnvsToApp, List.foldl_cons, hstep]
        rw [show List.foldl (setEnvsStep true) e rest = setEnvsToApp e rest true from rfl]
        rw [setEnvsToApp_lookup_not_mem rest e true w.name hvn]
        exact hev
      · have hne : v.name ≠ w.name := by
          intro hcontra
          exact hvn (hcontra ▸ List.mem_map_of_mem EnvVar.name hwr)
        have htrans : lookupA (setEnvsStep true e v) w.name = some ev := by
          rw [lookupA_setEnvsStep_ne true e v w.name hne]
          exact hev
        rw [setEnvsToApp, List.foldl_cons]
        exact (ih (setEnvsStep true e v) hrest).1 w hwr ev htrans hpub
    · intro w hw hall
      rcases List.mem_cons.mp hw with hwv | hwr
      · subst hwv
        have hstep : setEnvsStep true e w = insertA e w.name w := by
          unfold setEnvsStep setEnv getEnv
          cases hl : lookupA e w.name with
          | none => simp [hl]
          | some ev => simp [hl, hall ev hl]
        rw [setEnvsToApp, List.foldl_cons, hstep]
        rw [show List.foldl (setEnvsStep true) (insertA e w.name w) rest
            = setEnvsToApp (insertA e w.name w) rest true from rfl]
        rw [setEnvsToApp_lookup_not_mem rest _ true w.name hvn]
        exact lookupA_insertA_self e w.name w
      · have hne : v.name ≠ w.name := by
          intro hcontra
          exact hvn (hcontra ▸ List.mem_map_of_mem EnvVar.name hwr)
        have htrans : ∀ ev, lookupA (setEnvsStep true e v) w.name = some ev →
            ev.isPublic = true := by
          intro ev hev
          rw [lookupA_setEnvsStep_ne true e v w.name hne] at hev
          exact hall ev hev
        rw [setEnvsToApp, List.foldl_cons]
        exact (ih (setEnvsStep true e v) hrest).2.1 w hwr htrans
    · intro w hw
      rcases List.mem_cons.mp hw with hwv | hwr
      · subst hwv
        have hstep : setEnvsStep false e w = insertA e w.name w := by
          simp [setEnvsStep, setEnv]
        rw [setEnvsToApp, List.foldl_cons, hstep]
        rw [show List.foldl (setEnvsStep false) (insertA e w.name w) rest
            = setEnvsToApp (insertA e w.name w) rest false from rfl]
        rw [setEnvsToApp_lookup_not_mem rest _ false w.name hvn]
        exact lookupA_insertA_self e w.name w
      · rw [setEnvsToApp, List.foldl_cons]
        exact (ih (setEnvsStep false e v) hrest).2.2.1 w hwr
    · intro n hn p
      exact setEnvsToApp_lookup_not_mem (v :: rest) e p n hn

/-- Closed instance of C6, the specification's scenario: after storing `X`
as `"1"` non-public, a public-only call with `X="2"` public leaves `X` at
`"1"`, and the same call without public-only updates `X` to `"2"`. -/
theorem setEnvsToApp_publicOnly_gating_witness :
    lookupA (setEnvsToApp (setEnvsToApp [] [⟨"X", "1", false, ""⟩] false)
        [⟨"X", "2", true, ""⟩] true) "X" = some ⟨"X", "1", false, ""⟩
    ∧ lookupA (setEnvsToApp (setEnvsToApp [] [⟨"X", "1", false, ""⟩] false)
        [⟨"X", "2", true, ""⟩] false) "X" = some ⟨"X", "2", true, ""⟩ :=
  ⟨(setEnvsToApp_publicOnly_gating (setEnvsToApp [] [⟨"X", "1", false, ""⟩] false)
      [⟨"X", "2", true, ""⟩] (by decide)).1 ⟨"X", "2", true, ""⟩ (by decide)
      ⟨"X", "1", false, ""⟩ (by decide) rfl,
    (setEnvsToApp_publicOnly_gating (setEnvsToApp [] [⟨"X", "1", false, ""⟩] false)
      [⟨"X", "2", true, ""⟩] (by decide)).2.2.1 ⟨"X", "2", true, ""⟩ (by decide)⟩

theorem addUnit_map_machine (units : List AUnit) (u : AUnit) :
    (addUnit units u).map AUnit.machine
      = if u.machine ∈ units.map AUnit.machine then units.map AUnit.machine
        else units.map AUnit.machine ++ [u.machine] := by
  induction units with
  | nil => simp [addUnit]
  | cons x xs ih =>
    cases hbeq : (x.machine == u.machine) with
    | true =>
      have hx : x.machine = u.machine := by simpa using hbeq
      simp [addUnit, hbeq, hx]
    | false =>
      have hx : x.machine ≠ u.machine := by simpa using hbeq
      by_cases hmem : u.machine ∈ xs.map AUnit.machine
      · simp [addUnit, hbeq, ih, hmem, Ne.symm hx]
      · simp [addUnit, hbeq, ih, hmem, Ne.symm hx]

/-- C10: `AddUnit` appends the unit when no existing unit shares its machine
and otherwise overwrites, in place, the first unit with the same machine —
keeping the length — and on every app whose units carry pairwise distinct
machines the units still carry pairwise distinct machines afterwards. -/
theorem addUnit_replace_or_append (units : List AUnit) (u : AUnit)
    (h : (units.map AUnit.machine).Nodup) :
    ((addUnit units u).map AUnit.machine).Nodup
    ∧ (u.machine ∈ units.map AUnit.machine →
        addUnit units u
            = units.set (units.findIdx (fun x => x.machine == u.machine)) u
          ∧ (addUnit units u).length = units.length)
    ∧ (u.machine ∉ units.map AUnit.machine → addUnit units u = units ++ [u]) := by
  refine ⟨?_, ?_, ?_⟩
  · rw [addUnit_map_machine]
    by_cases hmem : u.machine ∈ units.map AUnit.machine
    · simpa [hmem] using h
    · simp only [hmem, if_false]
      simp [List.nodup_append, h, hmem]
  · intro hmem
    constructor
    · clear h
      induction units with
      | nil => cases hmem
      | cons x xs ih =>
        cases hbeq : (x.machine == u.machine) with
        | true => simp [addUnit, hbeq, List.findIdx_cons]
        | false =>
          have hx : x.machine ≠ u.machine := by simpa using hbeq
          have hmem' : u.machine ∈ xs.map AUnit.machine := by
            rcases List.mem_cons.mp hmem with hh | hh
            · exact absurd hh.symm hx
            · exact hh
          simp [addUnit, hbeq, List.findIdx_cons, ih hmem']
    · have := addUnit_map_machine units u
      rw [if_pos hmem] at this
      have hlen := congrArg List.length this
      simpa using hlen
  · intro hmem
    clear h
    induction units with
    | nil => rfl
    | cons x xs ih =>
      simp only [List.map_cons, List.mem_cons, not_or] at hmem
      have hbeq : (x.machine == u.machine) = false := by
        simp only [beq_eq_false_iff_ne, ne_eq]
        exact fun he => hmem.1 (he ▸ rfl)
      simp only [List.map_cons] at ih
      simp [addUnit, hbeq, ih hmem.2]

/-- Closed instance of C10: on units at machines 1 and 2, adding a unit at
machine 2 replaces the second unit in place and keeps the machines distinct,
while adding a unit at machine 3 appends it. -/
theorem addUnit_replace_or_append_witness :
    addUnit [⟨1, "u1"⟩, ⟨2, "u2"⟩] ⟨2, "u2b"⟩ = [⟨1, "u1"⟩, ⟨2, "u2b"⟩]
    ∧ (addUnit [⟨1, "u1"⟩, ⟨2, "u2"⟩] ⟨2, "u2b"⟩).length = 2
    ∧ ((addUnit [⟨1, "u1"⟩, ⟨2, "u2"⟩] ⟨2, "u2b"⟩).map AUnit.machine).Nodup
    ∧ addUnit [⟨1, "u1"⟩, ⟨2, "u2"⟩] ⟨3, "u3"⟩
        = [⟨1, "u1"⟩, ⟨2, "u2"⟩, ⟨3, "u3"⟩] :=
  have h₂ := addUnit_replace_or_append [⟨1, "u1"⟩, ⟨2, "u2"⟩] ⟨2, "u2b"⟩ (by decide)
  have h₃ := addUnit_replace_or_append [⟨1, "u1"⟩, ⟨2, "u2"⟩] ⟨3, "u3"⟩ (by decide)
  ⟨(h₂.2.1 (by decide)).1, (h₂.2.1 (by decide)).2, h₂.1, h₃.2.2 (by decide)⟩

end Tsuru
